import Mathlib

/-!
Verification development for the BlenderSims importer glue
(`loadmesh.py`, `simsgamedata.py`).

The Python source is shallowly embedded: floats become exact rationals,
Blender's `mathutils` matrices become `Matrix (Fin 4) (Fin 4) ℚ`, fallible
Python operations (dict `KeyError`, list `IndexError`, raised exceptions)
become `Option`/`Except` values, and the Blender scene API calls are
modelled by recording the data the glue writes into them (edit-bone
matrices and parent links, vertex-group add operations, f-curve keyframe
points, per-loop UV assignments).
-/

/-- 4×4 rational matrix standing for a `mathutils.Matrix` (floats replaced
by exact rationals). -/
abbrev Mat4 := Matrix (Fin 4) (Fin 4) ℚ

/-- 3-component vector standing for a `mathutils.Vector` / a bone position. -/
abbrev Vec3 := ℚ × ℚ × ℚ

/-- `mathutils.Quaternion([w,x,y,z]).to_matrix().to_4x4()` for a unit
quaternion: the standard rotation matrix of the quaternion, embedded in a
4×4 homogeneous matrix.  (`mathutils` normalises the quaternion first; the
only quaternion `loadmesh.py` ever converts is `[-1,0,0,0]`, which is
already unit, so normalisation is omitted from the embedding.) -/
def quatToMat4 (w x y z : ℚ) : Mat4 :=
  !![1 - 2*(y*y + z*z), 2*(x*y - w*z),     2*(x*z + w*y),     0;
     2*(x*y + w*z),     1 - 2*(x*x + z*z), 2*(y*z - w*x),     0;
     2*(x*z - w*y),     2*(y*z + w*x),     1 - 2*(x*x + y*y), 0;
     0,                 0,                 0,                 1]

/-- `mathutils.Matrix.Translation(offset)`: identity with the offset in the
fourth column (Blender multiplies column vectors on the right). -/
def translationMat (p : Vec3) : Mat4 :=
  !![1, 0, 0, p.1;
     0, 1, 0, p.2.1;
     0, 0, 1, p.2.2;
     0, 0, 0, 1]

/-- A decoded skeleton bone as produced by
`PySims.cmx_bcf.read_characterdata_from_stream` (name, parent name or the
sentinel `"NULL"`, local position offset, decoded rotation quaternion). -/
structure Bone where
  name : String
  parent_name : String
  pos : Vec3
  quat : ℚ × ℚ × ℚ × ℚ
deriving DecidableEq, Repr

/-- What `create_armature` writes into one Blender edit bone: its name, the
name of the edit bone assigned to `editbone.parent` (if any), and the
matrix assigned to `editbone.matrix`. -/
structure EditBone where
  name : String
  parent : Option String
  matrix : Mat4
deriving DecidableEq

/-- The matrix `create_armature` assigns to an edit bone
(`loadmesh.py` lines 63-72): the decoded `bone.quat` is overwritten by the
constant `[1.0, 0., 0., 0.]` (line 63), the quaternion handed to
`mathutils.Quaternion` is `[-a, b, c, d]` (line 64), and
`editbone.matrix = parent_mat * quatmat * Matrix.Translation(offset)`. -/
def boneWorldMatrix (parent_mat : Mat4) (bone : Bone) : Mat4 :=
  let a : ℚ := 1
  let b : ℚ := 0
  let c : ℚ := 0
  let d : ℚ := 0
  let quatmat := quatToMat4 (-a) b c d
  parent_mat * quatmat * translationMat bone.pos

/-- The bone loop of `create_armature` (`loadmesh.py` lines 38-75).
`dict` plays the role of the Python dict `editbones` (name of an
already-created edit bone ↦ the matrix assigned to it); a missing parent
key is Python's `KeyError`, modelled as `none` for the whole run (the
exception aborts the loop, so no partial armature is returned). -/
def createArmatureAux (dict : String → Option Mat4) : List Bone → Option (List EditBone)
  | [] => some []
  | bone :: rest =>
    let pm? : Option Mat4 :=
      if bone.parent_name ≠ "NULL" then dict bone.parent_name else some 1
    pm?.bind fun parent_mat =>
      let m := boneWorldMatrix parent_mat bone
      let eb : EditBone :=
        { name := bone.name
          parent := if bone.parent_name ≠ "NULL" then some bone.parent_name else none
          matrix := m }
      (createArmatureAux (fun n => if n = bone.name then some m else dict n) rest).map
        (eb :: ·)

/-- `create_armature` restricted to the data it writes per bone: the list of
edit bones it creates, in creation order, or `none` when the run aborts on
a dangling parent reference. -/
def createArmature (bones : List Bone) : Option (List EditBone) :=
  createArmatureAux (fun _ => none) bones

/-- `parentSeenOK seen bones = true` iff processing `bones` in order, with
the names in `seen` already created, every non-root bone's parent name has
been created before the bone itself is reached. -/
def parentSeenOK (seen : List String) : List Bone → Bool
  | [] => true
  | b :: rest =>
    (b.parent_name == "NULL" || seen.contains b.parent_name) &&
      parentSeenOK (b.name :: seen) rest

/-- The bones are listed parent-before-child (roots excepted). -/
def parentBeforeChild (bones : List Bone) : Bool :=
  parentSeenOK [] bones

/-- The two-bone demo skeleton of the spec's end-to-end scenario:
`[root(NULL,pos=[0,0,0]), spine(root,pos=[0,0,1])]`.  The decoded
quaternions are deliberately non-identity to exhibit that they are
ignored. -/
def demoSkeleton : List Bone :=
  [ { name := "root", parent_name := "NULL", pos := (0, 0, 0), quat := (0, 1, 0, 0) },
    { name := "spine", parent_name := "root", pos := (0, 0, 1), quat := (0, 0, 1, 0) } ]

/-- The rotation matrix of the quaternion `[-1,0,0,0]` actually used on
line 64 is the identity. -/
lemma quatToMat4_negOne : quatToMat4 (-1) 0 0 0 = 1 := by
  ext i j
  fin_cases i <;> fin_cases j <;>
    norm_num [quatToMat4, Matrix.one_apply, Matrix.vecHead, Matrix.vecTail, Fin.ext_iff]

/-- The rotation matrix of the identity quaternion `[1,0,0,0]` is the
identity. -/
lemma quatToMat4_one : quatToMat4 1 0 0 0 = 1 := by
  ext i j
  fin_cases i <;> fin_cases j <;>
    norm_num [quatToMat4, Matrix.one_apply, Matrix.vecHead, Matrix.vecTail, Fin.ext_iff]

/-- Translation by the zero offset is the identity matrix. -/
lemma translationMat_zero : translationMat 0 = 1 := by
  ext i j
  fin_cases i <;> fin_cases j <;>
    norm_num [translationMat, Matrix.one_apply, Matrix.vecHead, Matrix.vecTail, Fin.ext_iff,
      Prod.fst_zero, Prod.snd_zero]

/-- The assigned edit-bone matrix is the parent's matrix times the
translation by the bone's local position (the rotation factor collapses to
the identity). -/
lemma boneWorldMatrix_eq (parent_mat : Mat4) (bone : Bone) :
    boneWorldMatrix parent_mat bone = parent_mat * translationMat bone.pos := by
  simp [boneWorldMatrix, quatToMat4_negOne]

/-- `create_armature` on the two-bone demo skeleton, evaluated. -/
lemma createArmature_demoSkeleton :
    createArmature demoSkeleton =
      some [⟨"root", none, 1⟩, ⟨"spine", some "root", translationMat (0, 0, 1)⟩] := by
  simp [createArmature, createArmatureAux, demoSkeleton, boneWorldMatrix_eq,
    translationMat_zero]

/-- C1: for every bone, the world matrix `create_armature` assigns is
`parent_world_matrix × rotation_matrix(identity_quaternion) ×
translation_matrix(local_position_offset)` — the decoded bone quaternion
is ignored — and on the two-bone demo skeleton the resulting matrices are
`world(root) = Translation([0,0,0])` and `world(spine) =
Translation([0,0,1])`. -/
theorem C1_bind_pose_world_matrices :
    (∀ (parent_mat : Mat4) (bone : Bone),
        boneWorldMatrix parent_mat bone =
          parent_mat * quatToMat4 1 0 0 0 * translationMat bone.pos)
    ∧ ∃ ebs, createArmature demoSkeleton = some ebs ∧
        ebs.map (fun e => (e.name, e.matrix)) =
          [("root", translationMat (0, 0, 0)), ("spine", translationMat (0, 0, 1))] := by
  constructor
  · intro parent_mat bone
    rw [boneWorldMatrix_eq, quatToMat4_one, mul_one]
  · refine ⟨_, createArmature_demoSkeleton, ?_⟩
    simp [translationMat_zero]

/-- The bone loop succeeds exactly when, relative to the names already in
the edit-bone dict, every non-root bone's parent was created before the
bone itself. -/
lemma createArmatureAux_isSome (bones : List Bone) :
    ∀ (dict : String → Option Mat4) (seen : List String),
      (∀ n, (dict n).isSome = seen.contains n) →
      (createArmatureAux dict bones).isSome = parentSeenOK seen bones := by
  induction bones with
  | nil => intro dict seen _; simp [createArmatureAux, parentSeenOK]
  | cons b rest ih =>
    intro dict seen h
    have hupd : ∀ m n,
        ((fun n => if n = b.name then some m else dict n) n).isSome =
          (b.name :: seen).contains n := by
      intro m n
      by_cases hn : n = b.name <;> simp [hn, h n, List.contains_cons]
    by_cases hb : b.parent_name = "NULL"
    · simp only [createArmatureAux, parentSeenOK, hb, ne_eq, not_true_eq_false,
        if_false, Option.some_bind, Option.isSome_map]
      simpa using ih _ _ (hupd _)
    · simp only [createArmatureAux, parentSeenOK, hb, ne_eq, not_false_eq_true, if_true]
      cases hd : dict b.parent_name with
      | none =>
        have : seen.contains b.parent_name = false := by
          have := h b.parent_name
          rw [hd] at this
          simpa using this.symm
        simp [hd, hb, this]
        intro hmem
        exact absurd hmem (by simpa using this)
      | some pm =>
        have : seen.contains b.parent_name = true := by
          have := h b.parent_name
          rw [hd] at this
          simpa using this.symm
        simp only [hd, Option.some_bind, Option.isSome_map, hb, this]
        simpa using ih _ _ (hupd _)

/-- Per-bone content of a successful `create_armature` run: the edit bones
are created one per decoded bone, in order, with the decoded name and with
the parent link set to the decoded parent name exactly for non-root
bones. -/
lemma createArmatureAux_entries (bones : List Bone) :
    ∀ (dict : String → Option Mat4) ebs, createArmatureAux dict bones = some ebs →
      ebs.length = bones.length ∧
      ∀ i (hi : i < bones.length) (hi' : i < ebs.length),
        (ebs.get ⟨i, hi'⟩).name = (bones.get ⟨i, hi⟩).name ∧
        ((bones.get ⟨i, hi⟩).parent_name = "NULL" → (ebs.get ⟨i, hi'⟩).parent = none) ∧
        ((bones.get ⟨i, hi⟩).parent_name ≠ "NULL" →
          (ebs.get ⟨i, hi'⟩).parent = some (bones.get ⟨i, hi⟩).parent_name) := by
  induction bones with
  | nil =>
    intro dict ebs hebs
    simp only [createArmatureAux] at hebs
    cases hebs
    exact ⟨rfl, fun i hi => absurd hi (Nat.not_lt_zero i)⟩
  | cons b rest ih =>
    intro dict ebs hebs
    simp only [createArmatureAux] at hebs
    rcases hpm : (if b.parent_name ≠ "NULL" then dict b.parent_name else some 1) with _ | pm
    · rw [hpm] at hebs; simp at hebs
    · rw [hpm] at hebs
      simp only [Option.some_bind, Option.map_eq_some'] at hebs
      obtain ⟨ebs', hrec, rfl⟩ := hebs
      obtain ⟨hlen, hent⟩ := ih _ _ hrec
      refine ⟨by simpa using hlen, ?_⟩
      intro i hi hi'
      cases i with
      | zero =>
        refine ⟨rfl, fun hnull => ?_, fun hnull => ?_⟩
        · show (if b.parent_name ≠ "NULL" then some b.parent_name else none) = none
          have hb0 : b.parent_name = "NULL" := hnull
          simp [hb0]
        · show (if b.parent_name ≠ "NULL" then some b.parent_name else none) =
            some b.parent_name
          have hb0 : b.parent_name ≠ "NULL" := hnull
          simp [hb0]
      | succ k =>
        have hk : k < rest.length := by simpa using hi
        have hk' : k < ebs'.length := by simpa using hi'
        simpa using hent k hk hk'

/-- In a parent-before-child listing, every non-root bone's parent name is
either already among the `seen` names or carried by an earlier bone. -/
lemma parentSeenOK_earlier (bones : List Bone) :
    ∀ seen, parentSeenOK seen bones = true →
      ∀ i (hi : i < bones.length), (bones.get ⟨i, hi⟩).parent_name ≠ "NULL" →
        seen.contains (bones.get ⟨i, hi⟩).parent_name = true ∨
        ∃ j, ∃ hj : j < i,
          (bones.get ⟨j, lt_trans hj hi⟩).name = (bones.get ⟨i, hi⟩).parent_name := by
  induction bones with
  | nil => intro seen _ i hi; exact absurd hi (Nat.not_lt_zero i)
  | cons b rest ih =>
    intro seen hok i hi hnull
    simp only [parentSeenOK, Bool.and_eq_true, Bool.or_eq_true] at hok
    obtain ⟨hhead, htail⟩ := hok
    cases i with
    | zero =>
      left
      simp only [List.get] at hnull ⊢
      rcases hhead with heq | hcont
      · exact absurd (by simpa using heq) hnull
      · exact hcont
    | succ k =>
      have hk : k < rest.length := by simpa using hi
      have hnull' : (rest.get ⟨k, hk⟩).parent_name ≠ "NULL" := by
        simpa using hnull
      rcases ih _ htail k hk hnull' with hcont | ⟨j, hj, hname⟩
      · simp only [List.contains_cons, Bool.or_eq_true] at hcont
        rcases hcont with hbn | hseen
        · right
          refine ⟨0, Nat.succ_pos k, ?_⟩
          have heq : (rest.get ⟨k, hk⟩).parent_name = b.name := beq_iff_eq.mp hbn
          simp only [List.get]
          exact heq.symm
        · left
          simpa using hseen
      · right
        exact ⟨j + 1, Nat.succ_lt_succ hj, by simpa using hname⟩

/-- C8: every non-root bone's parent is resolved against the edit bones
created earlier in decode order; a not-yet-seen parent aborts the run with
no partial result, and for parent-before-child inputs every non-root edit
bone's parent link is the previously created bone of that name. -/
theorem C8_parent_resolution (bones : List Bone) :
    ((createArmature bones).isSome ↔ parentBeforeChild bones = true)
    ∧ ∀ ebs, createArmature bones = some ebs →
        ebs.length = bones.length ∧
        ∀ i (hi : i < bones.length) (hi' : i < ebs.length),
          (ebs.get ⟨i, hi'⟩).name = (bones.get ⟨i, hi⟩).name ∧
          ((bones.get ⟨i, hi⟩).parent_name = "NULL" → (ebs.get ⟨i, hi'⟩).parent = none) ∧
          ((bones.get ⟨i, hi⟩).parent_name ≠ "NULL" →
            (ebs.get ⟨i, hi'⟩).parent = some (bones.get ⟨i, hi⟩).parent_name ∧
            ∃ j, ∃ hj : j < i,
              (bones.get ⟨j, lt_trans hj hi⟩).name = (bones.get ⟨i, hi⟩).parent_name) := by
  have hsome : (createArmature bones).isSome = parentBeforeChild bones :=
    createArmatureAux_isSome bones (fun _ => none) [] (by intro n; simp)
  constructor
  · rw [hsome]
  · intro ebs hebs
    obtain ⟨hlen, hent⟩ := createArmatureAux_entries bones _ ebs hebs
    refine ⟨hlen, ?_⟩
    intro i hi hi'
    obtain ⟨hname, hroot, hpar⟩ := hent i hi hi'
    refine ⟨hname, hroot, ?_⟩
    intro hnull
    have hpbc : parentSeenOK [] bones = true := by
      have : (createArmature bones).isSome := by simp [hebs]
      rw [hsome] at this
      exact this
    rcases parentSeenOK_earlier bones [] hpbc i hi hnull with hcont | hex
    · simp at hcont
    · exact ⟨hpar hnull, hex⟩

/-- `isOk` test for an embedded Python call that may raise. -/
def isOkE {ε α : Type} : Except ε α → Bool
  | .ok _ => true
  | .error _ => false

/-- `AnyFileLoader.__getitem__` (`simsgamedata.py` lines 59-66): tries each
configured loader in list order, swallowing a raised `IOError`, and raises
a final `IOError` naming the basename only after every loader has
failed. -/
def anyFileLoaderGet {α : Type} (loaders : List (String → Except String α))
    (basename : String) : Except String α :=
  match loaders with
  | [] => .error ("Could not find match for basename '" ++ basename ++ "' in loaders")
  | loader :: rest =>
    match loader basename with
    | .ok v => .ok v
    | .error _ => anyFileLoaderGet rest basename

/-- A first source that never finds anything (every lookup raises). -/
def demoSource1 : String → Except String String :=
  fun basename => .error ("NotFound: '" ++ basename ++ "'")

/-- A second source holding only the entry `"body"`. -/
def demoSource2 : String → Except String String :=
  fun basename =>
    if basename = "body" then .ok "stream2" else .error ("NotFound: '" ++ basename ++ "'")

/-- C5: `AnyFileLoader.__getitem__` tries the configured loaders in list
order and returns the first success; it fails only when every loader
fails; with two sources where only the second has the entry, the second
source's stream is returned despite the first source's `NotFound`. -/
theorem C5_loader_priority_order :
    (∀ (α : Type) (loaders : List (String → Except String α)) (basename : String),
        isOkE (anyFileLoaderGet loaders basename) =
          loaders.any (fun loader => isOkE (loader basename)))
    ∧ (∀ (α : Type) (loader : String → Except String α) rest basename v,
        loader basename = .ok v → anyFileLoaderGet (loader :: rest) basename = .ok v)
    ∧ (∀ (α : Type) (loader : String → Except String α) rest basename,
        isOkE (loader basename) = false →
          anyFileLoaderGet (loader :: rest) basename = anyFileLoaderGet rest basename)
    ∧ anyFileLoaderGet [demoSource1, demoSource2] "body" = .ok "stream2"
    ∧ isOkE (demoSource1 "body") = false := by
  refine ⟨?_, ?_, ?_, ?_, rfl⟩
  · intro α loaders basename
    induction loaders with
    | nil => simp [anyFileLoaderGet, isOkE]
    | cons loader rest ih =>
      cases h : loader basename with
      | ok v => simp [anyFileLoaderGet, h, isOkE]
      | error e =>
        have hstep : anyFileLoaderGet (loader :: rest) basename =
            anyFileLoaderGet rest basename := by
          simp [anyFileLoaderGet, h]
        rw [hstep, ih, List.any_cons, h]
        simp [isOkE]
  · intro α loader rest basename v h
    simp [anyFileLoaderGet, h]
  · intro α loader rest basename h
    cases hl : loader basename with
    | ok v => rw [hl] at h; simp [isOkE] at h
    | error e => simp [anyFileLoaderGet, hl]
  · rfl

/-- A decoded motion record of a skill (bone name, channel-used flags,
channel offsets, frame count). -/
structure Motion where
  bone_name : String
  pos_used : Bool
  rot_used : Bool
  pos_off : ℕ
  rot_off : ℕ
  num_frames : ℕ
deriving DecidableEq, Repr

/-- A decoded skill (animation clip descriptor). -/
structure Skill where
  name : String
  ani_name : String
  num_pos : ℕ
  num_rot : ℕ
  motions : List Motion
deriving DecidableEq, Repr

/-- The Python runtime errors the skill selection can raise. -/
inductive PyErr
  | nameError (var : String)
  | indexError
deriving DecidableEq, Repr

/-- The `skill_choice` argument of `add_action_from_skill`: an `int` index
or a skill-name string. -/
inductive SkillChoice
  | byIndex (i : ℕ)
  | byName (s : String)
deriving DecidableEq, Repr

/-- Skill selection of `add_action_from_skill` (`loadmesh.py` lines
207-213).  An `int` choice is plain list indexing (negative indices never
arise in the importer and are not modelled).  A string choice evaluates
`next(s for s in objdta.skills if s.name == skill_name)`, but `skill_name`
is not a bound name anywhere in the function (the parameter is
`skill_choice`), so the first evaluated comparison — or, for an empty
skill list, the `except StopIteration` handler's message, which also reads
`skill_name` — raises `NameError` before any skill is selected. -/
def skillLookup (skills : List Skill) : SkillChoice → Except PyErr Skill
  | .byIndex i =>
    match skills.get? i with
    | some s => .ok s
    | none => .error .indexError
  | .byName _ => .error (.nameError "skill_name")

/-- First demo skill. -/
def walkSkill : Skill :=
  { name := "a2o-walk", ani_name := "a2o-walk-a", num_pos := 10, num_rot := 10,
    motions := [] }

/-- Second demo skill. -/
def runSkill : Skill :=
  { name := "a2o-run", ani_name := "a2o-run-a", num_pos := 8, num_rot := 8,
    motions := [] }

/-- C7 (code bug): selecting a skill by a name string never reaches the
intended "No skill of name ... found" error: because line 211 references
the unbound variable `skill_name`, every by-name lookup — absent or
present — raises `NameError`; the claimed `NotFound` error naming the
missing skill is unreachable.  Index selection works: index 0 on a
two-skill list returns the first skill. -/
theorem C7_skill_lookup_name_error :
    skillLookup [walkSkill, runSkill] (.byName "absent") = .error (.nameError "skill_name")
    ∧ (∀ s, skillLookup [walkSkill, runSkill] (.byName s) = .error (.nameError "skill_name"))
    ∧ skillLookup [walkSkill, runSkill] (.byIndex 0) = .ok walkSkill :=
  ⟨rfl, fun _ => rfl, rfl⟩

/-- Python `str.lower()` restricted to ASCII, which covers the game-data
filenames the importer handles. -/
def lowerChar (c : Char) : Char :=
  if 'A' ≤ c ∧ c ≤ 'Z' then Char.ofNat (c.toNat + 32) else c

/-- Python `s.lower()` on an ASCII string. -/
def pyLower (s : String) : String :=
  ⟨s.data.map lowerChar⟩

/-- Lookup in a Python dict built by a comprehension over a pair sequence:
a later pair with the same key overwrites an earlier one. -/
def pyDictLookup {α : Type} : List (String × α) → String → Option α
  | [], _ => none
  | (k, v) :: rest, key =>
    match pyDictLookup rest key with
    | some r => some r
    | none => if key = k then some v else none

/-- Modelled from the spec: `PySims.far.FarFile.open` is external to this
repository (only its callers are in `src/`).  Spec §4.1 specifies
`open(name)` as a case-sensitive exact-match lookup over the archive's
entry names that fails with `NotFound` when the name is absent.  The
opened byte range is represented by the tag `"stream:" ++ name`. -/
def farOpen (entries : List String) (name : String) : Except String String :=
  if entries.contains name then .ok ("stream:" ++ name)
  else .error ("NotFound: '" ++ name ++ "'")

/-- `OpenFromFar.__call__` (`simsgamedata.py` lines 79-80): hands the full
name straight to `FarFile.open`; no case normalisation happens here. -/
def openFromFarCall (entries : List String) (fullname : String) : Except String String :=
  farOpen entries fullname

/-- The precomputed lowercase→actual-name dict of
`GetFilenameFromTemporaryFromFar.__init__` (line 95) and
`OpenFromDir.__init__` (line 110): `dict((e.lower(), e) for e in names)`. -/
def lowerContent (entries : List String) (key : String) : Option String :=
  pyDictLookup (entries.map fun e => (pyLower e, e)) key

/-- `GetFilenameFromTemporaryFromFar.__call__` (lines 97-102): resolves
`fullname.lower()` through the precomputed map and opens the stored
actual name via `FarFile.open` (writing the stream to a temporary file is
a filesystem side effect outside the embedding; the resolved entry's
stream models the call's result).  A missing key raises `KeyError`. -/
def getFilenameFromTemporaryFromFarCall (entries : List String) (fullname : String) :
    Except String String :=
  match lowerContent entries (pyLower fullname) with
  | none => .error ("KeyError: '" ++ pyLower fullname ++ "'")
  | some actual => farOpen entries actual

/-- `OpenFromDir.__call__` (lines 112-116): resolves `fullname.lower()`
through the precomputed directory listing map and opens the stored entry;
a missing key becomes `IOError("No such file ...")`. -/
def openFromDirCall (entries : List String) (fullname : String) : Except String String :=
  match lowerContent entries (pyLower fullname) with
  | none => .error ("No such file '" ++ fullname ++ "'")
  | some actual => .ok ("stream:" ++ actual)

/-- `GetFilenameFromDir.__call__` (lines 128-132): like `OpenFromDir` but
returns the stored actual filename itself. -/
def getFilenameFromDirCall (entries : List String) (fullname : String) :
    Except String String :=
  match lowerContent entries (pyLower fullname) with
  | none => .error ("No such file '" ++ fullname ++ "'")
  | some actual => .ok actual

/-- Every value stored in the lowercase→actual-name map is one of the
entry names. -/
lemma lowerContent_mem (entries : List String) :
    ∀ k v, lowerContent entries k = some v → v ∈ entries := by
  induction entries with
  | nil => intro k v h; simp [lowerContent, pyDictLookup] at h
  | cons e rest ih =>
    intro k v h
    simp only [lowerContent, List.map_cons, pyDictLookup] at h
    cases hr : pyDictLookup (rest.map fun e => (pyLower e, e)) k with
    | some r =>
      rw [hr] at h
      cases h
      exact List.mem_cons_of_mem e (ih k v hr)
    | none =>
      rw [hr] at h
      by_cases hk : k = pyLower e
      · rw [if_pos hk] at h
        cases h
        exact List.mem_cons_self e rest
      · rw [if_neg hk] at h
        cases h

/-- Every stored value's lowercase form is the key it is stored under. -/
lemma lowerContent_lower (entries : List String) :
    ∀ k v, lowerContent entries k = some v → pyLower v = k := by
  induction entries with
  | nil => intro k v h; simp [lowerContent, pyDictLookup] at h
  | cons e rest ih =>
    intro k v h
    simp only [lowerContent, List.map_cons, pyDictLookup] at h
    cases hr : pyDictLookup (rest.map fun e => (pyLower e, e)) k with
    | some r =>
      rw [hr] at h
      cases h
      exact ih k v hr
    | none =>
      rw [hr] at h
      by_cases hk : k = pyLower e
      · rw [if_pos hk] at h
        cases h
        exact hk.symm
      · rw [if_neg hk] at h
        cases h

/-- A stored entry name makes the lowercase map hit under its lowercase
key. -/
lemma lowerContent_isSome (entries : List String) :
    ∀ actual, actual ∈ entries → (lowerContent entries (pyLower actual)).isSome := by
  induction entries with
  | nil => intro actual h; simp at h
  | cons e rest ih =>
    intro actual h
    simp only [lowerContent, List.map_cons, pyDictLookup]
    cases hr : pyDictLookup (rest.map fun e => (pyLower e, e)) (pyLower actual) with
    | some r => simp
    | none =>
      rcases List.mem_cons.mp h with rfl | hmem
      · simp
      · have := ih actual hmem
        rw [lowerContent, hr] at this
        simp at this

/-- C6 (amended): the lookup variants that precompute a lowercase→actual
map — the temporary-file archive variant and both directory variants —
resolve case-insensitively: a full name differing from a stored entry
name only in letter case resolves to a stored entry with the same
lowercase form.  (The plain archive stream variant `OpenFromFar` has no
such map; see the counterexample.) -/
theorem C6_case_insensitive_map_variants (entries : List String) (fullname actual : String)
    (hmem : actual ∈ entries) (hcase : pyLower fullname = pyLower actual) :
    ∃ v, v ∈ entries ∧ pyLower v = pyLower fullname ∧
      getFilenameFromDirCall entries fullname = .ok v ∧
      openFromDirCall entries fullname = .ok ("stream:" ++ v) ∧
      getFilenameFromTemporaryFromFarCall entries fullname = .ok ("stream:" ++ v) := by
  have hsome : (lowerContent entries (pyLower fullname)).isSome := by
    rw [hcase]
    exact lowerContent_isSome entries actual hmem
  rcases hv : lowerContent entries (pyLower fullname) with _ | v
  · rw [hv] at hsome; simp at hsome
  · have hvmem : v ∈ entries := lowerContent_mem entries _ v hv
    have hvlow : pyLower v = pyLower fullname := lowerContent_lower entries _ v hv
    refine ⟨v, hvmem, hvlow, ?_, ?_, ?_⟩
    · simp [getFilenameFromDirCall, hv]
    · simp [openFromDirCall, hv]
    · simp [getFilenameFromTemporaryFromFarCall, hv, farOpen, hvmem]

/-- Witness for C6: the archive/directory listing stores `"Body.BMP"`, the
request uses `"body.bmp"`, and all three map-based variants resolve it. -/
theorem C6_case_insensitive_map_variants_witness :
    ∃ v, v ∈ ["Body.BMP"] ∧ pyLower v = pyLower "body.bmp" ∧
      getFilenameFromDirCall ["Body.BMP"] "body.bmp" = .ok v ∧
      openFromDirCall ["Body.BMP"] "body.bmp" = .ok ("stream:" ++ v) ∧
      getFilenameFromTemporaryFromFarCall ["Body.BMP"] "body.bmp" =
        .ok ("stream:" ++ v) :=
  C6_case_insensitive_map_variants ["Body.BMP"] "body.bmp" "Body.BMP"
    (by decide) (by decide)

/-- Counterexample to C6 as stated: the archive-stream lookup variant
(`OpenFromFar.__call__`) is NOT case-insensitive — with the single stored
entry `"Body.BMP"`, the name `"body.bmp"` (differing only in letter case)
fails to resolve, while the map-based temporary-file variant succeeds on
the same input. -/
theorem C6_openFromFar_case_sensitive_counterexample :
    isOkE (openFromFarCall ["Body.BMP"] "body.bmp") = false
    ∧ pyLower "body.bmp" = pyLower "Body.BMP"
    ∧ isOkE (getFilenameFromTemporaryFromFarCall ["Body.BMP"] "body.bmp") = true := by
  refine ⟨by decide, by decide, by decide⟩

/-- `framelength = 1.0` (`loadmesh.py` line 198). -/
def framelength : ℚ := 1

/-- One Blender f-curve as `add_action_from_skill` fills it: its data
path, component index, and keyframe points `(time, value)`. -/
structure FCurve where
  data_path : String
  index : ℕ
  keyframe_points : List (ℚ × ℚ)
deriving DecidableEq, Repr

/-- The three location curves emitted for a motion with `pos_used`
(`loadmesh.py` lines 221-229).  `raw axis i` stands for
`raw_frames[axis][i]`. -/
def posCurves (raw : ℕ → ℕ → ℚ) (m : Motion) : List FCurve :=
  (List.range 3).map fun axis_i =>
    { data_path := "pose.bones[\"" ++ m.bone_name ++ "\"].location"
      index := axis_i
      keyframe_points := (List.range m.num_frames).map fun frame_i : ℕ =>
        (framelength * (frame_i : ℚ), raw axis_i (m.pos_off + frame_i)) }

/-- The four rotation-quaternion curves emitted for a motion with
`rot_used` (`loadmesh.py` lines 231-245): component 0 takes the negated
raw value, components 1-3 the raw value unmodified, reading
`raw_frames[axis_i + 3][rot_off + frame_i]`. -/
def rotCurves (raw : ℕ → ℕ → ℚ) (m : Motion) : List FCurve :=
  (List.range 4).map fun axis_i =>
    { data_path := "pose.bones[\"" ++ m.bone_name ++ "\"].rotation_quaternion"
      index := axis_i
      keyframe_points := (List.range m.num_frames).map fun frame_i : ℕ =>
        if axis_i == 0 then
          (framelength * (frame_i : ℚ), -raw (axis_i + 3) (m.rot_off + frame_i))
        else
          (framelength * (frame_i : ℚ), raw (axis_i + 3) (m.rot_off + frame_i)) }

/-- All curves `add_action_from_skill` emits for one motion record. -/
def motionCurves (raw : ℕ → ℕ → ℚ) (m : Motion) : List FCurve :=
  (if m.pos_used then posCurves raw m else [])
    ++ (if m.rot_used then rotCurves raw m else [])

/-- All curves emitted for a skill (lines 220-245). -/
def skillCurves (raw : ℕ → ℕ → ℚ) (skill : Skill) : List FCurve :=
  skill.motions.bind (motionCurves raw)

/-- C2: for a motion with rotation used, 4 rotation curves are emitted;
at every frame index `i < num_frames` the first (scalar) component's
keyframe value is the negation of `raw_frames[3][rot_off+i]`, components
2-4 carry `raw_frames[4..6][rot_off+i]` unmodified, and every keyframe is
keyed at time `frame_i × 1.0`. -/
theorem C2_rotation_channel_assembly (raw : ℕ → ℕ → ℚ) (m : Motion) :
    (m.rot_used = true →
        motionCurves raw m =
          (if m.pos_used then posCurves raw m else []) ++ rotCurves raw m)
    ∧ (rotCurves raw m).length = 4
    ∧ (∀ i, i < m.num_frames →
        ((rotCurves raw m).get? 0).bind (fun c => c.keyframe_points.get? i) =
            some ((i : ℚ), -raw 3 (m.rot_off + i))
          ∧ ∀ a, a = 1 ∨ a = 2 ∨ a = 3 →
              ((rotCurves raw m).get? a).bind (fun c => c.keyframe_points.get? i) =
                some ((i : ℚ), raw (a + 3) (m.rot_off + i))) := by
  have hrange : List.range 4 = [0, 1, 2, 3] := rfl
  have hget : ∀ i, i < m.num_frames → ∀ f : ℕ → ℚ × ℚ,
      ((List.range m.num_frames).map f).get? i = some (f i) := by
    intro i hi f
    rw [List.get?_map, List.get?_range hi]
    rfl
  refine ⟨fun h => by simp [motionCurves, h], by simp [rotCurves], ?_⟩
  intro i hi
  constructor
  · simp only [rotCurves, hrange, List.map_cons, List.map_nil, List.get?_cons_zero,
      Option.some_bind]
    rw [hget i hi]
    simp [framelength]
  · intro a ha
    rcases ha with rfl | rfl | rfl <;>
      · simp only [rotCurves, hrange, List.map_cons, List.map_nil, List.get?_cons_zero,
          List.get?_cons_succ, Option.some_bind]
        rw [hget i hi]
        simp [framelength]

/-- One decoded bone-binding quintuple of a skn/bmf mesh (the code unpacks
`_, frst_wghtone, num_wghtone, frst_wghtotr, num_wghtotr`). -/
structure BoneBinding where
  bone_idx : ℕ
  frst_wghtone : ℕ
  num_wghtone : ℕ
  frst_wghtotr : ℕ
  num_wghtotr : ℕ
deriving DecidableEq, Repr

/-- One decoded vertex record of a skn/bmf mesh: position and normal. -/
structure SknVertex where
  pos : Vec3
  normal : Vec3
deriving DecidableEq, Repr

/-- A decoded deformable mesh as produced by
`PySims.skn_bmf.read_deformablemesh_from_stream`. -/
structure DMesh where
  name : String
  vertices : List SknVertex
  uvcoords : List (ℚ × ℚ)
  faces : List (List ℕ)
  bones : List String
  bonebindings : List BoneBinding
  blenddata : List (ℕ × ℕ)
  texfilename : String
deriving DecidableEq, Repr

/-- `locs` of `add_mesh_to_armature` (`loadmesh.py` line 107): the
positions of the vertex prefix of length `len(mesh.uvcoords)`. -/
def meshLocs (mesh : DMesh) : List Vec3 :=
  (mesh.vertices.take mesh.uvcoords.length).map (·.pos)

/-- The raw-weight scaling of line 132: `float(weight)/65568.0`. -/
def blendWeightScale (w : ℕ) : ℚ :=
  (w : ℚ) / 65568

/-- One recorded `vgroup.add(verts, weight, 'ADD')` call: the vertex group
it addresses (one group is created per mesh bone, indexed here by the bone
index), the vertex indices, and the weight. -/
structure VGroupOp where
  group : ℕ
  verts : List ℕ
  weight : ℚ
deriving DecidableEq, Repr

/-- The blend-table loop of lines 130-132 for one bone: one singleton
`add` per blend entry in `[frst_wghtotr, frst_wghtotr + num_wghtotr)`,
with weight `raw/65568.0`; a table index out of range is Python's
`IndexError`. -/
def blendOps (blenddata : List (ℕ × ℕ)) (g : ℕ) : ℕ → ℕ → Option (List VGroupOp)
  | _, 0 => some []
  | frst, k + 1 =>
    match blenddata.get? frst with
    | none => none
    | some (vertidx, w) =>
      (blendOps blenddata g (frst + 1) k).map (⟨g, [vertidx], blendWeightScale w⟩ :: ·)

/-- The vertex-group loop of lines 124-132: per bone (in order), one `add`
of the exclusive weight-one range at weight 1.0 followed by the bone's
blend-table `add`s. -/
def vgroupOpsAux (mesh : DMesh) : List String → ℕ → Option (List VGroupOp)
  | [], _ => some []
  | _ :: rest, boneidx =>
    match mesh.bonebindings.get? boneidx with
    | none => none
    | some b =>
      match blendOps mesh.blenddata boneidx b.frst_wghtotr b.num_wghtotr with
      | none => none
      | some bl =>
        (vgroupOpsAux mesh rest (boneidx + 1)).map
          (fun ops => ⟨boneidx, List.range' b.frst_wghtone b.num_wghtone, 1⟩ :: (bl ++ ops))

/-- All `vgroup.add` calls `add_mesh_to_armature` issues for a mesh. -/
def vgroupOps (mesh : DMesh) : Option (List VGroupOp) :=
  vgroupOpsAux mesh mesh.bones 0

/-- Blender's `'ADD'` assignment mode for one `add` call: each listed
vertex gets the weight added to its current weight in the group (a vertex
not yet in the group starts from 0). -/
def vgroupAddWeights (verts : List ℕ) (w : ℚ) (st : ℕ → ℚ) : ℕ → ℚ :=
  verts.foldl (fun st v => fun u => if u = v then st u + w else st u) st

/-- The per-group per-vertex weights after replaying all recorded `add`
calls, starting from no assignments. -/
def applyVGroupOps (ops : List VGroupOp) : ℕ → ℕ → ℚ :=
  ops.foldl
    (fun st op => fun g =>
      if g = op.group then vgroupAddWeights op.verts op.weight (st g) else st g)
    (fun _ _ => 0)

/-- The weight one `add` call contributes to one vertex. -/
def opContrib (op : VGroupOp) (v : ℕ) : ℚ :=
  (op.verts.count v : ℚ) * op.weight

/-- Sum of the contributions of all recorded `add` calls to one vertex. -/
def totalContrib (ops : List VGroupOp) (v : ℕ) : ℚ :=
  (ops.map (fun op => opContrib op v)).sum

/-- A vertex's final total weight over the vertex groups `0..nGroups-1`. -/
def totalWeight (ops : List VGroupOp) (nGroups v : ℕ) : ℚ :=
  Finset.sum (Finset.range nGroups) (fun g => applyVGroupOps ops g v)

/-- Evaluating one `'ADD'` call: each vertex's weight grows by
(number of occurrences in the call) × weight. -/
lemma vgroupAddWeights_eval (w : ℚ) :
    ∀ (verts : List ℕ) (st : ℕ → ℚ) (u : ℕ),
      vgroupAddWeights verts w st u = st u + (verts.count u : ℚ) * w := by
  intro verts
  induction verts with
  | nil => intro st u; simp [vgroupAddWeights]
  | cons x xs ih =>
    intro st u
    simp only [vgroupAddWeights, List.foldl_cons] at ih ⊢
    rw [ih]
    by_cases hu : u = x
    · subst hu
      simp [List.count_cons]
      ring
    · have : (u == x) = false := by simpa using hu
      simp [List.count_cons, this, hu]

/-- Replaying `'ADD'` calls on top of any state adds exactly the sum of
the calls' contributions, group-wise, provided every call addresses a
group below `nG`. -/
lemma applyVGroupOps_sum (v : ℕ) :
    ∀ (ops : List VGroupOp) (st : ℕ → ℕ → ℚ) (nG : ℕ),
      (∀ op ∈ ops, op.group < nG) →
      Finset.sum (Finset.range nG)
          (fun g =>
            (ops.foldl
              (fun st op => fun g' =>
                if g' = op.group then vgroupAddWeights op.verts op.weight (st g') else st g')
              st) g v)
        = Finset.sum (Finset.range nG) (fun g => st g v) + totalContrib ops v := by
  intro ops
  induction ops with
  | nil => intro st nG _; simp [totalContrib]
  | cons op ops ih =>
    intro st nG hlt
    rw [List.foldl_cons]
    rw [ih _ nG (fun o ho => hlt o (List.mem_cons_of_mem op ho))]
    have hstep :
        Finset.sum (Finset.range nG)
            (fun g =>
              (fun g' =>
                if g' = op.group then vgroupAddWeights op.verts op.weight (st g') else st g')
                g v)
          = Finset.sum (Finset.range nG) (fun g => st g v) + opContrib op v := by
      have hpt : ∀ g,
          (if g = op.group then vgroupAddWeights op.verts op.weight (st g) else st g) v
            = st g v + (if g = op.group then opContrib op v else 0) := by
        intro g
        by_cases hg : g = op.group
        · subst hg
          simp [vgroupAddWeights_eval, opContrib]
        · simp [hg]
      calc Finset.sum (Finset.range nG)
            (fun g =>
              (fun g' =>
                if g' = op.group then vgroupAddWeights op.verts op.weight (st g') else st g')
                g v)
          = Finset.sum (Finset.range nG)
              (fun g => st g v + (if g = op.group then opContrib op v else 0)) := by
            exact Finset.sum_congr rfl (fun g _ => hpt g)
        _ = Finset.sum (Finset.range nG) (fun g => st g v)
              + Finset.sum (Finset.range nG) (fun g => if g = op.group then opContrib op v else 0) := by
            rw [Finset.sum_add_distrib]
        _ = Finset.sum (Finset.range nG) (fun g => st g v) + opContrib op v := by
            rw [Finset.sum_ite_eq' (Finset.range nG) op.group (fun _ => opContrib op v)]
            simp [Finset.mem_range.mpr (hlt op (List.mem_cons_self op ops))]
    rw [hstep]
    simp only [totalContrib, List.map_cons, List.sum_cons]
    ring

/-- Demo mesh in which bone 0 owns vertex 0 exclusively (weight 1.0) and
bone 1's blend table adds raw weight 32784 (= 65568/2) to the same
vertex 0. -/
def demoBlendMesh : DMesh :=
  { name := "xskin-demo"
    vertices := [⟨(0, 0, 0), (0, 0, 1)⟩, ⟨(1, 0, 0), (0, 0, 1)⟩]
    uvcoords := [(0, 0), (1, 1)]
    faces := []
    bones := ["b0", "b1"]
    bonebindings := [⟨0, 0, 1, 0, 0⟩, ⟨1, 1, 1, 0, 1⟩]
    blenddata := [(0, 32784)]
    texfilename := "x" }

/-- The `add` calls issued for `demoBlendMesh`. -/
def demoBlendOps : List VGroupOp :=
  [⟨0, [0], 1⟩, ⟨1, [1], 1⟩, ⟨1, [0], blendWeightScale 32784⟩]

/-- `vgroupOps` on the demo mesh, evaluated. -/
lemma vgroupOps_demoBlendMesh : vgroupOps demoBlendMesh = some demoBlendOps := by
  simp [vgroupOps, vgroupOpsAux, blendOps, demoBlendMesh, demoBlendOps, List.range']

/-- C4: weight assignment is additive accumulation with no normalization —
replaying the recorded `'ADD'` calls gives every vertex a total weight
equal to the sum of all contributions addressed to it; an exclusive
weight-one range contributes exactly 1.0 to its vertices and a blend entry
contributes its scaled raw weight; on the demo mesh, vertex 0 is
referenced by both bones' bindings and ends at 1.0 + 0.5 = 1.5 > 1.0. -/
theorem C4_additive_weight_accumulation (nG v : ℕ) (ops : List VGroupOp) :
    ((∀ op ∈ ops, op.group < nG) → totalWeight ops nG v = totalContrib ops v)
    ∧ (∀ g frst num, v ∈ List.range' frst num →
        opContrib ⟨g, List.range' frst num, 1⟩ v = 1)
    ∧ (∀ g vi w, opContrib ⟨g, [vi], w⟩ v = if v = vi then w else 0)
    ∧ (vgroupOps demoBlendMesh = some demoBlendOps
        ∧ totalContrib demoBlendOps 0 = 1 + blendWeightScale 32784
        ∧ totalWeight demoBlendOps 2 0 = 3 / 2
        ∧ (1 : ℚ) < 3 / 2) := by
  have hmain : ∀ (ops' : List VGroupOp) (nG' v' : ℕ),
      (∀ op ∈ ops', op.group < nG') → totalWeight ops' nG' v' = totalContrib ops' v' := by
    intro ops' nG' v' h
    have := applyVGroupOps_sum v' ops' (fun _ _ => 0) nG' h
    simpa [totalWeight, applyVGroupOps] using this
  refine ⟨hmain ops nG v, ?_, ?_, vgroupOps_demoBlendMesh, ?_, ?_, by norm_num⟩
  · intro g frst num hv
    have hc : (List.range' frst num).count v = 1 :=
      List.count_eq_one_of_mem (List.nodup_range' _ _) hv
    simp [opContrib, hc]
  · intro g vi w
    by_cases hv : v = vi
    · subst hv
      simp [opContrib]
    · have hne : (v == vi) = false := by simpa using hv
      simp [opContrib, List.count_cons, hne, hv]
  · simp [totalContrib, demoBlendOps, opContrib]
  · rw [hmain demoBlendOps 2 0 (by simp [demoBlendOps])]
    simp [totalContrib, demoBlendOps, opContrib, blendWeightScale]
    norm_num

/-- C3: each blend-table entry `(vertex, w)` processed by the vertex-group
loop becomes a singleton `add` of weight exactly `w/65568.0`; in
particular `w=0 ↦ 0.0`, `w=65568 ↦ 1.0` exactly, and `w=65535` lands just
below 1 (≈0.9995, within 0.001 of the spec's "~0.9999"), not at 1.0. -/
theorem C3_blend_weight_scaling :
    (∀ (blenddata : List (ℕ × ℕ)) (g frst num : ℕ) ops,
        blendOps blenddata g frst num = some ops →
          ops.length = num ∧
          ∀ i v w, i < num → blenddata.get? (frst + i) = some (v, w) →
            ops.get? i = some ⟨g, [v], (w : ℚ) / 65568⟩)
    ∧ blendWeightScale 0 = 0
    ∧ blendWeightScale 65568 = 1
    ∧ blendWeightScale 65535 ≠ 1
    ∧ |blendWeightScale 65535 - 9999 / 10000| < 1 / 1000 := by
  refine ⟨?_, by norm_num [blendWeightScale], by norm_num [blendWeightScale],
    by norm_num [blendWeightScale], ?_⟩
  · intro blenddata g frst num
    induction num generalizing frst with
    | zero =>
      intro ops h
      simp only [blendOps] at h
      cases h
      exact ⟨rfl, fun i v w hi => absurd hi (Nat.not_lt_zero i)⟩
    | succ k ih =>
      intro ops h
      simp only [blendOps] at h
      cases hbd : blenddata.get? frst with
      | none => rw [hbd] at h; cases h
      | some p =>
        rw [hbd] at h
        obtain ⟨vertidx, w0⟩ := p
        simp only [Option.map_eq_some'] at h
        obtain ⟨rest, hrest, rfl⟩ := h
        obtain ⟨hlen, hent⟩ := ih (frst + 1) rest hrest
        refine ⟨by simpa using hlen, ?_⟩
        intro i v w hi hget
        cases i with
        | zero =>
          rw [Nat.add_zero] at hget
          rw [hbd] at hget
          cases hget
          simp [blendWeightScale]
        | succ j =>
          have hj : j < k := by omega
          have hget' : blenddata.get? (frst + 1 + j) = some (v, w) := by
            rw [show frst + 1 + j = frst + (j + 1) by omega]
            exact hget
          simpa using hent j v w hj hget'
  · rw [abs_sub_lt_iff]
    constructor <;> norm_num [blendWeightScale]

/-- `armbone.matrix_local * loc.to_4d()` (line 114) followed by `a[:3]`
(line 116): multiply the homogeneous column vector and keep xyz. -/
def applyMat (M : Mat4) (v : Vec3) : Vec3 :=
  let w := M.mulVec ![v.1, v.2.1, v.2.2, 1]
  (w 0, w 1, w 2)

/-- The inner loop of lines 113-114: transform
`locs[frst..frst+num)` in place by the bone matrix; an index beyond the
`locs` list is Python's `IndexError`. -/
def transformRange (M : Mat4) : ℕ → ℕ → List Vec3 → Option (List Vec3)
  | _, 0, locs => some locs
  | frst, k + 1, locs =>
    match locs.get? frst with
    | none => none
    | some v => transformRange M (frst + 1) k (locs.set frst (applyMat M v))

/-- `armature.bones[armature.bones.find(bonename)]` (line 110):
`find` yields the bone's index, or -1 when absent — and index -1 then
selects the LAST bone (Python negative indexing), failing only on an
empty armature. -/
def armatureFind (armBones : List (String × Mat4)) (bonename : String) : Option Mat4 :=
  match armBones.findIdx? (fun b => b.1 == bonename) with
  | some i => (armBones.get? i).map (·.2)
  | none => armBones.getLast?.map (·.2)

/-- The bone loop of lines 109-114 over `mesh.bones` (with the running
bone index), threading the mutated `locs` list. -/
def skinBones (armBones : List (String × Mat4)) (bindings : List BoneBinding) :
    List String → ℕ → List Vec3 → Option (List Vec3)
  | [], _, locs => some locs
  | bonename :: rest, boneidx, locs =>
    match armatureFind armBones bonename with
    | none => none
    | some M =>
      match bindings.get? boneidx with
      | none => none
      | some b =>
        match transformRange M b.frst_wghtone b.num_wghtone locs with
        | none => none
        | some locs2 => skinBones armBones bindings rest (boneidx + 1) locs2

/-- The geometry `add_mesh_to_armature` hands to
`blmesh.from_pydata([a[:3] for a in locs], [], mesh.faces)` (line 116):
the bone-transformed vertex prefix and the decoded faces. -/
def addMeshGeometry (armBones : List (String × Mat4)) (mesh : DMesh) :
    Option (List Vec3 × List (List ℕ)) :=
  match skinBones armBones mesh.bonebindings mesh.bones 0 (meshLocs mesh) with
  | none => none
  | some locs2 => some (locs2, mesh.faces)

/-- C9: only the vertex prefix of length `len(mesh.uvcoords)` enters
skinning and mesh construction — `locs` has exactly
`min (uv count) (vertex count)` entries, each the corresponding vertex's
position, and appending trailing vertex records beyond the UV count
leaves the constructed geometry unchanged. -/
theorem C9_vertex_prefix_truncation (mesh : DMesh) (armBones : List (String × Mat4))
    (extra : List SknVertex) :
    (meshLocs mesh).length = min mesh.uvcoords.length mesh.vertices.length
    ∧ (∀ i, i < mesh.uvcoords.length →
        (meshLocs mesh).get? i = (mesh.vertices.get? i).map (·.pos))
    ∧ (mesh.uvcoords.length ≤ mesh.vertices.length →
        addMeshGeometry armBones { mesh with vertices := mesh.vertices ++ extra } =
          addMeshGeometry armBones mesh) := by
  refine ⟨by simp [meshLocs], ?_, ?_⟩
  · intro i hi
    simp only [meshLocs, List.get?_eq_getElem?, List.getElem?_map]
    rw [List.getElem?_take_of_lt hi]
  · intro hle
    have hlocs : meshLocs { mesh with vertices := mesh.vertices ++ extra } = meshLocs mesh := by
      simp only [meshLocs]
      rw [List.take_append_of_le_length hle]
    simp only [addMeshGeometry, hlocs]

/-- `List.mapM` over `Option`, written as the explicit per-element loop
(the Python `for` loops of lines 145-149 stop at the first raised
exception). -/
def optMapM {α β : Type} (g : α → Option β) : List α → Option (List β)
  | [] => some []
  | a :: rest =>
    match g a with
    | none => none
    | some b => (optMapM g rest).map (b :: ·)

/-- The per-loop UV values `add_mesh_to_armature` writes (lines 145-149):
for every face and every loop of it, `(u, 1.0 - v)` where `(u, v)` is the
decoded UV coordinate at the loop's vertex index (`from_pydata` makes the
face's loops carry exactly the face's vertex indices, in order). -/
def loopUVs (mesh : DMesh) : Option (List (List (ℚ × ℚ))) :=
  optMapM
    (fun face => optMapM
      (fun vi => (mesh.uvcoords.get? vi).map (fun uv => (uv.1, 1 - uv.2))) face)
    mesh.faces

/-- Elementwise description of a successful `optMapM` run. -/
lemma optMapM_spec {α β : Type} (g : α → Option β) :
    ∀ (l : List α) (out : List β), optMapM g l = some out →
      out.length = l.length ∧
      ∀ i a, l.get? i = some a → ∃ b, g a = some b ∧ out.get? i = some b := by
  intro l
  induction l with
  | nil =>
    intro out h
    simp only [optMapM] at h
    cases h
    exact ⟨rfl, fun i a ha => by simp at ha⟩
  | cons a rest ih =>
    intro out h
    simp only [optMapM] at h
    cases hg : g a with
    | none => rw [hg] at h; cases h
    | some b =>
      rw [hg] at h
      simp only [Option.map_eq_some'] at h
      obtain ⟨out', hrec, rfl⟩ := h
      obtain ⟨hlen, hent⟩ := ih out' hrec
      refine ⟨by simpa using hlen, ?_⟩
      intro i x hx
      cases i with
      | zero =>
        rw [List.get?_cons_zero] at hx
        cases hx
        exact ⟨b, hg, rfl⟩
      | succ j =>
        rw [List.get?_cons_succ] at hx
        obtain ⟨c, hc, hout⟩ := hent j x hx
        exact ⟨c, hc, by simpa using hout⟩

/-- C10: every loop's written UV equals `(u, 1.0 - v)` for the decoded
`(u, v)` at the loop's vertex index — U copied unchanged, V mirrored
about 0.5 — for every vertex of every face. -/
theorem C10_uv_v_mirrored (mesh : DMesh) :
    (∀ out, loopUVs mesh = some out → out.length = mesh.faces.length)
    ∧ (∀ out, loopUVs mesh = some out →
        ∀ f face, mesh.faces.get? f = some face →
          ∃ uvrow, out.get? f = some uvrow ∧ uvrow.length = face.length ∧
            ∀ k vi, face.get? k = some vi →
              ∃ uv, mesh.uvcoords.get? vi = some uv ∧
                uvrow.get? k = some (uv.1, 1 - uv.2)) := by
  constructor
  · intro out h
    exact (optMapM_spec _ mesh.faces out h).1
  · intro out h f face hface
    obtain ⟨-, hent⟩ := optMapM_spec _ mesh.faces out h
    obtain ⟨row, hrow, hout⟩ := hent f face hface
    obtain ⟨hrowlen, hrowent⟩ := optMapM_spec _ face row hrow
    refine ⟨row, hout, hrowlen, ?_⟩
    intro k vi hk
    obtain ⟨b, hb, hrowk⟩ := hrowent k vi hk
    simp only [Option.map_eq_some'] at hb
    obtain ⟨uv, huv, rfl⟩ := hb
    exact ⟨uv, huv, hrowk⟩
